import Mathlib

/-!
Verification development for the XScraper repository
(`src/scraper/scraper.py`, class `TwitterScraper`).

The Python code is shallowly embedded: each method becomes an executable
Lean definition over explicit data.  External DOM/page state is abstracted
into an `Elem` record holding exactly the values the code reads from a post
node, and the scroll loop is driven by an explicit environment of snapshot
pairs.  Python machine behaviour is modelled as follows:

* Python `int` is `Int` / `Nat` (arbitrary precision, exactly as in Python);
* Python `float` arithmetic inside `handle_suffix` is idealised as exact
  rational arithmetic, represented by a numerator/denominator pair of
  naturals (the parsed token is a nonnegative decimal, the multiplier a
  power of ten, so `int(num * multiplier)` is exact natural floor division);
* a value that a fallible helper may fail to produce is an `Option`;
  `handle_suffix` returns `Option Int`, with `none` modelling the uncaught
  `ValueError` that `float(...)` can raise inside it;
* Python's `hash` of a string is modelled by a fixed deterministic content
  hash (`str_hash`); only determinism within one process run is relied on.
-/

/-- Characters treated as whitespace by Python's `str.strip` / `\s`
(ASCII fragment; the scraper only meets ASCII whitespace). -/
def isPySpace (c : Char) : Bool :=
  c == ' ' || c == '\t' || c == '\n' || c == '\r' || c == '\x0b' || c == '\x0c'

/-- A character matched by the regex class `[\d.]` in `handle_suffix`. -/
def digitOrDot (c : Char) : Bool :=
  c.isDigit || c == '.'

/-- A character matched by `([KMB])?` under `re.IGNORECASE`. -/
def isKMBchar (c : Char) : Bool :=
  c == 'K' || c == 'k' || c == 'M' || c == 'm' || c == 'B' || c == 'b'

/-- Decimal value of a digit string (used for Python's `int`/`float` on
all-digit tokens). -/
def natOfDigits (cs : List Char) : Nat :=
  cs.foldl (fun n c => n * 10 + (c.toNat - '0'.toNat)) 0

/-- Python `str.strip()`: drop whitespace from both ends. -/
def pyStrip (cs : List Char) : List Char :=
  ((cs.dropWhile isPySpace).reverse.dropWhile isPySpace).reverse

/-- Embeds `re.search(r"([\d.]+)\s*([KMB])?", text, re.IGNORECASE)` of
`handle_suffix`: scan for the first `[\d.]` character, take the maximal
`[\d.]+` run as group 1, skip `\s*`, and optionally take one `[KMB]`
(case-insensitive) as group 2.  The code then applies `.upper()` to
group 2, so the returned suffix character is already uppercased. -/
def searchNumToken : List Char → Option (List Char × Option Char)
  | [] => none
  | c :: rest =>
    if digitOrDot c then
      let g1 := (c :: rest).takeWhile digitOrDot
      let r1 := (c :: rest).dropWhile digitOrDot
      match r1.dropWhile isPySpace with
      | [] => some (g1, none)
      | k :: _ => if isKMBchar k then some (g1, some k.toUpper) else some (g1, none)
    else searchNumToken rest

/-- Python `float(group1)` where `group1` consists of digits and dots:
it succeeds iff the token has at most one dot and at least one digit
(`float('.')`, `float('1.2.3')` raise `ValueError`).  The value is returned
exactly as a numerator/denominator pair `(n, 10^L)` with `L` the number of
fractional digits; the real code's IEEE doubles are idealised as exact. -/
def pyFloatParse (cs : List Char) : Option (Nat × Nat) :=
  if cs.all digitOrDot ∧ cs.count '.' ≤ 1 ∧ cs.any Char.isDigit then
    let I := cs.takeWhile (· != '.')
    let F := (cs.dropWhile (· != '.')).drop 1
    some (natOfDigits I * 10 ^ F.length + natOfDigits F, 10 ^ F.length)
  else none

/-- Python `int(text)` on an already-stripped string: optional sign
followed by a nonempty digit run.  (Target strings here never contain
digit-group underscores, so those are not modelled.) -/
def pyIntParse (cs : List Char) : Option Int :=
  let sb : Bool × List Char :=
    match cs with
    | [] => (false, [])
    | c :: t =>
      if c == '-' then (true, t)
      else if c == '+' then (false, t)
      else (false, c :: t)
  if sb.2 ≠ [] ∧ sb.2.all Char.isDigit then
    some (if sb.1 then -(natOfDigits sb.2 : Int) else (natOfDigits sb.2 : Int))
  else none

/-- Embeds `suffix_map = {"K": 1e3, "M": 1e6, "B": 1e9}` with
`suffix_map.get(suffix, 1)`; the suffix is the uppercased group 2. -/
def multOf : Option Char → Nat
  | none => 1
  | some c =>
    if c == 'K' then 1000
    else if c == 'M' then 1000000
    else if c == 'B' then 1000000000
    else 1

/-- Embeds `TwitterScraper.handle_suffix` (scraper.py:66-84).

```
text_clean = text.replace(",", "").strip()
match = re.search(r"([\d.]+)\s*([KMB])?", text_clean, re.IGNORECASE)
if match:
    num = float(match.group(1))
    suffix = (match.group(2) or "").upper()
    multiplier = suffix_map.get(suffix, 1)
    return int(num * multiplier)
else:
    try: return int(text_clean)
    except ValueError: return 0
```

`none` models the uncaught `ValueError` raised by `float(match.group(1))`
when group 1 is dots-only or has several dots; `int(num * multiplier)`
truncates, which is exact natural floor division in the idealised
arithmetic. -/
def handle_suffix (text : String) : Option Int :=
  let text_clean := pyStrip (text.data.filter (· != ','))
  match searchNumToken text_clean with
  | some (g1, suf) =>
    match pyFloatParse g1 with
    | some nd => some (Int.ofNat (nd.1 * multOf suf / nd.2))
    | none => none
  | none => some ((pyIntParse text_clean).getD 0)

example : handle_suffix "12.3K" = some 12300 := by decide
example : handle_suffix "1,234" = some 1234 := by decide
example : handle_suffix "1.2M" = some 1200000 := by decide
example : handle_suffix "abc" = some 0 := by decide
example : handle_suffix "1.5" = some 1 := by decide
example : handle_suffix "." = none := by decide
example : handle_suffix "1.2.3" = none := by decide
example : handle_suffix " 3 k" = some 3000 := by decide
example : handle_suffix "" = some 0 := by decide
example : handle_suffix "12.9b" = some 12900000000 := by decide

/-- Rendering of the optional fractional component of a well-formed
count string: nothing, or a dot followed by the fractional digits. -/
def fracPart : Option (List Char) → List Char
  | none => []
  | some fs => '.' :: fs

/-- Rendering of the optional magnitude suffix. -/
def sufPart : Option Char → List Char
  | none => []
  | some c => [c]

/-- The optional suffix letter is one of K/M/B in either case. -/
def optSufOk : Option Char → Bool
  | none => true
  | some c => isKMBchar c

/-- Round-half-up rounding of the exact value `n / d` (the claim's
`round`; Python's round-half-to-even agrees on every value examined
here). -/
def roundNat (n d : Nat) : Nat :=
  (2 * n + d) / (2 * d)

/-! ## Post-node abstraction

`Elem` packages everything the scraper reads from one post root node
(one `article[data-testid='tweet']` handle) and from the page around it.
`eid` is the node's identity, used by `t not in before` in the scroll
loop (list membership over node handles).  Selector results that may be
absent are `Option`s; `engBlock` / `timeEl` are doubly optional because
the element may be missing and, separately, its attribute may be `None`. -/

structure Elem where
  /-- node identity for the `t not in before` membership diff -/
  eid : Nat
  /-- value of `tweet.get_attribute("data-tweet-id")` -/
  dataTweetId : Option String
  /-- value of `tweet.inner_html()` -/
  innerHtml : String
  /-- inner text of `div[data-testid='tweetText']`, if that element exists -/
  tweetTextEl : Option String
  /-- the `time` element: present? and its `datetime` attribute (may be `None`) -/
  timeEl : Option (Option String)
  /-- the `div[role='group'][aria-label]` element: present? and its
  `aria-label` attribute (may be `None`) -/
  engBlock : Option (Option String)
  /-- trimmed inner text of `a[aria-label*='views']`, if present
  (`safe_get_text` strips it and defaults to `"0"` when absent) -/
  viewsLink : Option String
  /-- trimmed inner text of `div[data-testid='reply'] span`, if present -/
  replyBtn : Option String
  /-- a `div[data-testid='socialContext']:has-text('Reposted')` matches -/
  socialContextReposted : Bool
  /-- a `div[data-testid='quoteTweet']` matches -/
  quoteTweet : Bool
  /-- a `div[data-testid='placementTracking']` matches -/
  placementTracking : Bool
deriving DecidableEq

/-- The engagement dictionary
`{"Reply": 0, "Repost": 0, "Like": 0, "Views": 0}` of `parse_engagement`.
Field names: `reply` = "Reply", `repost` = "Repost", `like` = "Like",
`views` = "Views". -/
structure Engagement where
  reply : Int
  repost : Int
  like : Int
  views : Int
deriving DecidableEq

/-- The all-zero starting dictionary. -/
def Engagement.zero : Engagement := ⟨0, 0, 0, 0⟩

/-- Tests whether `needle` is a leading segment of `hay` (used to implement Python's
substring operator `in`). -/
def listStartsWith : List Char → List Char → Bool
  | [], _ => true
  | _ :: _, [] => false
  | a :: as, b :: bs => a == b && listStartsWith as bs

/-- Python's substring test `needle in hay` on strings. -/
def hasSub (needle : List Char) : List Char → Bool
  | [] => listStartsWith needle []
  | c :: t => listStartsWith needle (c :: t) || hasSub needle t

example : hasSub "reply".data "replies".data = false := by decide
example : hasSub "repost".data "reposts".data = true := by decide
example : hasSub "like".data "likes".data = true := by decide
example : hasSub "comment".data "comments".data = true := by decide

/-- A character matched by `\w` (ASCII fragment: the label text has been
lowercased, the scraper meets ASCII words). -/
def isWordChar (c : Char) : Bool :=
  c.isAlphanum || c == '_'

/-- One attempted match of `(\d+)\s+(\w+)` anchored at the current
position (the head must already be a digit): greedy `\d+`, then `\s+`
(at least one), then greedy `\w+` (at least one).  Returns the two groups
and the remainder after the match.  No backtracking can help: giving a
digit back to `\d+` leaves a digit where `\s+` needs whitespace, and
giving whitespace back to `\s+` leaves whitespace where `\w+` needs a
word character. -/
def tryPairAt (cs : List Char) : Option (List Char × List Char × List Char) :=
  let ds := cs.takeWhile Char.isDigit
  let r1 := cs.dropWhile Char.isDigit
  let sp := r1.takeWhile isPySpace
  let r2 := r1.dropWhile isPySpace
  let w := r2.takeWhile isWordChar
  if ds ≠ [] ∧ sp ≠ [] ∧ w ≠ [] then
    some (ds, w, r2.dropWhile isWordChar)
  else none

/-- Embeds `re.findall(r"(\d+)\s+(\w+)", aria_clean)`: scan left to right,
collecting non-overlapping matches; on failure at a position advance by
one character.  Fuel bounds the number of scan steps; each step consumes
at least one character, so `cs.length` fuel is always enough. -/
def findPairsAux : Nat → List Char → List (List Char × List Char)
  | 0, _ => []
  | _, [] => []
  | fuel + 1, c :: rest =>
    if c.isDigit then
      match tryPairAt (c :: rest) with
      | some (ds, w, rem) => (ds, w) :: findPairsAux fuel rem
      | none => findPairsAux fuel rest
    else findPairsAux fuel rest

/-- All `(number, word)` pairs found in the cleaned label text. -/
def findPairs (cs : List Char) : List (List Char × List Char) :=
  findPairsAux cs.length cs

example : findPairs "12 replies 3 reposts 100 likes".data
    = [("12".data, "replies".data), ("3".data, "reposts".data),
       ("100".data, "likes".data)] := by decide

/-- The classification of one `(c_str, w)` pair inside the `for` loop of
`parse_engagement`:

```
if "reply" in w or "comment" in w:    result["Reply"] = c_val
elif "retweet" in w or "repost" in w: result["Repost"] = c_val
elif "like" in w:                     result["Like"] = c_val
elif "view" in w:                     result["Views"] = c_val
```
-/
def classifyPair (r : Engagement) (cStr w : List Char) : Engagement :=
  let v : Int := Int.ofNat (natOfDigits cStr)
  if hasSub "reply".data w || hasSub "comment".data w then { r with reply := v }
  else if hasSub "retweet".data w || hasSub "repost".data w then { r with repost := v }
  else if hasSub "like".data w then { r with like := v }
  else if hasSub "view".data w then { r with views := v }
  else r

/-- Step 1 of `parse_engagement` (scraper.py:150-167): if the grouped
metrics block exists, read its `aria-label` (`or ""` turns a `None`
attribute into the empty string), strip `.` and `,`, lowercase, and fold
the `(number, word)` pairs over the all-zero dictionary. -/
def label_metrics (e : Elem) : Engagement :=
  match e.engBlock with
  | none => Engagement.zero
  | some attr =>
    let aria := attr.getD ""
    let ariaClean :=
      (((aria.data.filter (· != '.')).filter (· != ',')).map Char.toLower)
    (findPairs ariaClean).foldl (fun r p => classifyPair r p.1 p.2) Engagement.zero

/-- Step 2 of `parse_engagement` (scraper.py:170-172): if `Views` is
still 0, read the dedicated views link (`safe_get_text` default `"0"`)
and assign its normalized value.  A `.error` carries the dictionary as
it stood when `handle_suffix` raised (the assignment never happens). -/
def views_step (e : Elem) (r1 : Engagement) : Except Engagement Engagement :=
  if r1.views = 0 then
    match handle_suffix (e.viewsLink.getD "0") with
    | some v => .ok { r1 with views := v }
    | none => .error r1
  else .ok r1

/-- Step 3 of `parse_engagement` (scraper.py:176-180): if `Reply` is
still 0, read the reply button's count text and accept the normalized
value only when it is strictly positive. -/
def reply_step (e : Elem) (r2 : Engagement) : Except Engagement Engagement :=
  if r2.reply = 0 then
    match handle_suffix (e.replyBtn.getD "0") with
    | some v => .ok (if 0 < v then { r2 with reply := v } else r2)
    | none => .error r2
  else .ok r2

/-- Steps 1-4 of `parse_engagement`, i.e. everything inside the `try`
block up to (but excluding) the all-zero recursion check.  `.error r`
models an uncaught `ValueError` from `handle_suffix` inside the `try`:
control jumps to the `except` handler, which logs and falls through to
`return result`, returning the dictionary as updated so far and
skipping the remaining steps and the recursion check. -/
def engage_steps (e : Elem) : Except Engagement Engagement :=
  match views_step e (label_metrics e) with
  | .error r => .error r
  | .ok r2 => reply_step e r2

/-- Embeds `TwitterScraper.parse_engagement` (scraper.py:124-190).  The source
recurses on itself whenever every field is still zero, with no depth
bound; `fuel` models Python's recursion limit.  At the bottom the
`RecursionError` is caught by the innermost `except` handler, whose frame
returns its (all-zero) `result`, which every pending frame then returns
unchanged — so the bottom case also returns the step result. -/
def parse_engagement : Nat → Elem → Engagement
  | 0, e =>
    (match engage_steps e with
     | .error r => r
     | .ok r => r)
  | fuel + 1, e =>
    match engage_steps e with
    | .error r => r
    | .ok r =>
      if r.reply + r.repost + r.like + r.views = 0 then parse_engagement fuel e
      else r

/-! ## Classifier, record builder, scroll collector -/

/-- The four strings `get_tweet_type` can return, as an enumeration:
`Repost` = "Ретвит", `Quote` = "Цитирование", `Promoted` =
"Рекламный пост", `Original` = "Оригинальный пост". -/
inductive PostType where
  | Original
  | Repost
  | Quote
  | Promoted
deriving DecidableEq

/-- Embeds `TwitterScraper.get_tweet_type` (scraper.py:192-208): test the
repost marker, then the quote container, then the promoted marker; the
first selector that matches decides, default `Original`. -/
def get_tweet_type (e : Elem) : PostType :=
  if e.socialContextReposted then .Repost
  else if e.quoteTweet then .Quote
  else if e.placementTracking then .Promoted
  else .Original

/-- Deterministic stand-in for Python's `hash` on strings (the code uses
`str(hash(tweet.inner_html()))`).  Only determinism within one run is
relied on anywhere, so the exact mixing constants are immaterial. -/
def str_hash (s : String) : Nat :=
  s.data.foldl (fun h c => (h * 31 + c.toNat) % (2 ^ 64)) 5381

/-- The dictionary built by `parse_tweet`:
`id` = "id", `ptype` = "Тип поста", `text` = "Текст", `date` = "Дата"
(`none` models a Python `None` datetime attribute), `eng` =
"Взаимодействия". -/
structure PostRecord where
  id : String
  ptype : PostType
  text : String
  date : Option String
  eng : Engagement
deriving DecidableEq

/-- Embeds `TwitterScraper.parse_tweet` (scraper.py:210-244).
`tweet.get_attribute("data-tweet-id") or str(hash(tweet.inner_html()))`:
a missing or empty attribute (both falsy) selects the content-hash
fallback.  The engagement fuel is immaterial by
`parse_engagement_fuel_irrelevant`. -/
def parse_tweet (e : Elem) : PostRecord :=
  { id :=
      match e.dataTweetId with
      | some s => if s = "" then toString (str_hash e.innerHtml) else s
      | none => toString (str_hash e.innerHtml)
    ptype := get_tweet_type e
    text := e.tweetTextEl.getD "Не указано"
    date :=
      match e.timeEl with
      | some a => a
      | none => some "Не указано"
    eng := parse_engagement 1 e }

/-- One iteration's pair of snapshots from
`get_tweet_elements()`: the node list read before the scroll and the one
read after the settle delay. -/
structure Iter where
  before : List Elem
  after : List Elem
deriving DecidableEq

/-- The collector's mutable state: `processed` models the instance field
`self.processed_tweets` (the dedup ledger), `acc` the local `all_tweets`
output list, and `scrolls` counts how many iterations issued their
`scrollBy`/`wait_for_timeout` pair (instrumentation of the two calls at
scraper.py:265-266). -/
structure LoopState where
  processed : List String
  acc : List PostRecord
  scrolls : Nat
deriving DecidableEq

/-- Embeds `new_ones = [t for t in after if t not in before]` (scraper.py:269). -/
def new_nodes (it : Iter) : List Elem :=
  it.after.filter (fun t => decide (t ∉ it.before))

/-- The inner `for tw in new_ones` loop (scraper.py:271-276): build the
record; if its id is truthy and not yet in the ledger, append it to the
output and add the id to the ledger. -/
def process_new : List Elem → LoopState → LoopState
  | [], st => st
  | tw :: rest, st =>
    let d := parse_tweet tw
    if d.id ≠ "" ∧ d.id ∉ st.processed then
      process_new rest
        { st with acc := st.acc ++ [d], processed := st.processed ++ [d.id] }
    else process_new rest st

/-- The `while not self.should_exit` loop of `load_and_parse_tweets`
(scraper.py:262-280).  `cancel k` is the value of `self.should_exit`
observed at the top of iteration `k` (the flag is set asynchronously by
the SIGINT handler and read only at this boundary); `env k` supplies
iteration `k`'s two snapshots.  The Python loop is unbounded; `fuel`
only truncates runs longer than the property at hand ever needs. -/
def load_aux : Nat → (Nat → Bool) → (Nat → Iter) → Nat → LoopState → LoopState
  | 0, _, _, _, st => st
  | fuel + 1, cancel, env, k, st =>
    if cancel k then st
    else
      let nw := new_nodes (env k)
      let st1 := process_new nw { st with scrolls := st.scrolls + 1 }
      if nw.isEmpty then st1
      else load_aux fuel cancel env (k + 1) st1

/-- Embeds `TwitterScraper.load_and_parse_tweets` (scraper.py:252-285).
`processed0` is the value of `self.processed_tweets` on entry: the
method never resets it — it is created once in `__init__` and threaded
through every collection call on the same scraper instance.  The
returned state carries the output list (`acc`, the returned
`all_tweets`), the updated instance ledger, and the scroll count. -/
def load_and_parse_tweets (fuel : Nat) (cancel : Nat → Bool) (env : Nat → Iter)
    (processed0 : List String) : LoopState :=
  load_aux fuel cancel env 0 { processed := processed0, acc := [], scrolls := 0 }

/-- One loop iteration as a state transformer: scroll/wait (count it),
then process the snapshot diff. -/
def iter_step (env : Nat → Iter) (st : LoopState) (k : Nat) : LoopState :=
  process_new (new_nodes (env k)) { st with scrolls := st.scrolls + 1 }

/-- Run iterations `k, k+1, ..., k+n-1` in order. -/
def run_from (env : Nat → Iter) : Nat → Nat → LoopState → LoopState
  | _, 0, st => st
  | k, n + 1, st => run_from env (k + 1) n (iter_step env st k)

/-! ## Concrete fixtures used by witnesses and counterexamples -/

/-- A plain original post carrying the platform id `"t1"` and no
engagement markup. -/
def elem0 : Elem :=
  { eid := 0, dataTweetId := some "t1", innerHtml := "<article>t1</article>",
    tweetTextEl := some "hello", timeEl := none, engBlock := none,
    viewsLink := none, replyBtn := none, socialContextReposted := false,
    quoteTweet := false, placementTracking := false }

/-- A cancellation flag that is never set. -/
def cancelNever : Nat → Bool := fun _ => false

/-- A feed whose snapshots are always empty. -/
def envEmpty : Nat → Iter := fun _ => { before := [], after := [] }

/-- A feed that reveals `elem0` at iteration 0 and nothing new after. -/
def envOnce : Nat → Iter := fun k =>
  if k = 0 then { before := [], after := [elem0] }
  else { before := [elem0], after := [elem0] }

/-- The same post as `elem0` rendered as a fresh node handle in a later
collection run. -/
def elem0again : Elem := { elem0 with eid := 1 }

/-- A second-run feed that reveals `elem0again` at iteration 0. -/
def envOnceAgain : Nat → Iter := fun k =>
  if k = 0 then { before := [], after := [elem0again] }
  else { before := [elem0again], after := [elem0again] }

/-- A feed that keeps revealing fresh nodes forever (used to exercise
cancellation): iteration `k` reveals a node with platform id `n<k>`. -/
def elemNum (n : Nat) : Elem := { elem0 with eid := 100 + n, dataTweetId := some (toString n) }

/-- Endless feed: iteration `k`'s diff is exactly `[elemNum k]`. -/
def envEndless : Nat → Iter := fun k =>
  { before := [], after := [elemNum k] }

/-- A cancellation flag raised from iteration 2 on. -/
def cancelAt2 : Nat → Bool := fun k => decide (2 ≤ k)

/-- Attribute-less node with some serialized content. -/
def elemHashA : Elem :=
  { elem0 with eid := 10, dataTweetId := none, innerHtml := "<div>x</div>" }

/-- A structurally distinct node with the same serialized content. -/
def elemHashB : Elem :=
  { elem0 with eid := 11, dataTweetId := none, innerHtml := "<div>x</div>" }

/-- A node matching both the reposted-by marker and the quoted-post
container. -/
def elemRepostQuote : Elem :=
  { elem0 with socialContextReposted := true, quoteTweet := true }

/-- A post whose grouped label reports twelve replies, three reposts and
a hundred likes, with no dedicated views element and no reply button. -/
def elemLabel : Elem :=
  { elem0 with engBlock := some (some "12 replies 3 reposts 100 likes") }

/-- A post whose grouped label yields a nonzero reply count (the word
`comments` does contain the keyword `comment`) while a dedicated reply
button reads `0`. -/
def elemGuard : Elem :=
  { elem0 with engBlock := some (some "5 comments 2 likes"), replyBtn := some "0" }

/-- The empty collector state. -/
def st0 : LoopState := { processed := [], acc := [], scrolls := 0 }

/-! ## Engagement lemmas -/

/-- The observable value of `parse_engagement` does not depend on the
recursion fuel: the node is static, so the all-zero retry recomputes the
same dictionary. -/
theorem parse_engagement_fuel_irrelevant (fuel : Nat) (e : Elem) :
    parse_engagement fuel e = parse_engagement 0 e := by
  induction fuel with
  | zero => rfl
  | succ n ih =>
    show (match engage_steps e with
      | .error r => r
      | .ok r =>
        if r.reply + r.repost + r.like + r.views = 0 then parse_engagement n e
        else r) = parse_engagement 0 e
    rcases h : engage_steps e with r | r
    · simp [parse_engagement, h]
    · by_cases hz : r.reply + r.repost + r.like + r.views = 0
      · simp [hz, ih, parse_engagement, h]
      · simp [hz, parse_engagement, h]

/-- At fuel 0, `parse_engagement` is the plain step result. -/
theorem parse_engagement_zero (e : Elem) :
    parse_engagement 0 e
      = (match engage_steps e with
         | .error r => r
         | .ok r => r) := rfl

/-- An exception inside the views step leaves the dictionary exactly as
the label scan produced it. -/
theorem views_step_error (e : Elem) (r1 r : Engagement)
    (h : views_step e r1 = .error r) : r = r1 := by
  unfold views_step at h
  by_cases hv : r1.views = 0
  · rw [if_pos hv] at h
    rcases hh : handle_suffix (e.viewsLink.getD "0") with _ | v
    · rw [hh] at h
      cases h
      rfl
    · rw [hh] at h
      cases h
  · rw [if_neg hv] at h
    cases h

/-- The views step never touches the reply, repost or like fields. -/
theorem views_step_ok (e : Elem) (r1 r2 : Engagement)
    (h : views_step e r1 = .ok r2) :
    r2.reply = r1.reply ∧ r2.repost = r1.repost ∧ r2.like = r1.like := by
  unfold views_step at h
  by_cases hv : r1.views = 0
  · rw [if_pos hv] at h
    rcases hh : handle_suffix (e.viewsLink.getD "0") with _ | v
    · rw [hh] at h
      cases h
    · rw [hh] at h
      cases h
      exact ⟨rfl, rfl, rfl⟩
  · rw [if_neg hv] at h
    cases h
    exact ⟨rfl, rfl, rfl⟩

/-- A nonzero reply count is never consulted against the reply button:
the reply step returns the dictionary unchanged. -/
theorem reply_step_nonzero (e : Elem) (r2 : Engagement) (h : r2.reply ≠ 0) :
    reply_step e r2 = .ok r2 := by
  unfold reply_step
  rw [if_neg h]

/-- Neither the label scan nor the views step reads the reply button. -/
theorem views_of_replyBtn (e : Elem) (b : Option String) :
    label_metrics { e with replyBtn := b } = label_metrics e
      ∧ ∀ r1, views_step { e with replyBtn := b } r1 = views_step e r1 :=
  ⟨rfl, fun _ => rfl⟩

/-- The result at fuel 0 when the steps raised. -/
theorem parse_zero_of_steps_err (e : Elem) (r : Engagement)
    (h : engage_steps e = .error r) : parse_engagement 0 e = r := by
  rw [parse_engagement_zero, h]

/-- The result at fuel 0 when the steps completed. -/
theorem parse_zero_of_steps_ok (e : Elem) (r : Engagement)
    (h : engage_steps e = .ok r) : parse_engagement 0 e = r := by
  rw [parse_engagement_zero, h]

/-! ## Collector lemmas -/

theorem process_new_scrolls (l : List Elem) (st : LoopState) :
    (process_new l st).scrolls = st.scrolls := by
  induction l generalizing st with
  | nil => rfl
  | cons tw rest ih =>
    by_cases hg : (parse_tweet tw).id ≠ "" ∧ (parse_tweet tw).id ∉ st.processed
    · simp only [process_new, if_pos hg]
      rw [ih]
    · simp only [process_new, if_neg hg]
      exact ih st

theorem process_new_processed_mono (l : List Elem) (st : LoopState) :
    ∀ x ∈ st.processed, x ∈ (process_new l st).processed := by
  induction l generalizing st with
  | nil => intro x hx; exact hx
  | cons tw rest ih =>
    intro x hx
    by_cases hg : (parse_tweet tw).id ≠ "" ∧ (parse_tweet tw).id ∉ st.processed
    · simp only [process_new, if_pos hg]
      exact ih _ x (List.mem_append_left _ hx)
    · simp only [process_new, if_neg hg]
      exact ih st x hx

/-- Records already processed (all ids in the ledger) leave the state
untouched: re-processing emits nothing and changes no length. -/
theorem process_new_skip (l : List Elem) (st : LoopState)
    (h : ∀ t ∈ l, (parse_tweet t).id ∈ st.processed) :
    process_new l st = st := by
  induction l with
  | nil => rfl
  | cons tw rest ih =>
    have hmem : (parse_tweet tw).id ∈ st.processed := h tw (by simp)
    have hg : ¬((parse_tweet tw).id ≠ "" ∧ (parse_tweet tw).id ∉ st.processed) := by
      intro hc; exact hc.2 hmem
    simp only [process_new, if_neg hg]
    exact ih fun t ht => h t (by simp [ht])

/-- The dedup invariant: output ids are duplicate-free and all recorded
in the ledger, and `process_new` preserves it. -/
theorem process_new_inv (l : List Elem) (st : LoopState)
    (h1 : (st.acc.map PostRecord.id).Nodup)
    (h2 : ∀ r ∈ st.acc, r.id ∈ st.processed) :
    ((process_new l st).acc.map PostRecord.id).Nodup
      ∧ ∀ r ∈ (process_new l st).acc, r.id ∈ (process_new l st).processed := by
  induction l generalizing st with
  | nil => exact ⟨h1, h2⟩
  | cons tw rest ih =>
    by_cases hg : (parse_tweet tw).id ≠ "" ∧ (parse_tweet tw).id ∉ st.processed
    · simp only [process_new, if_pos hg]
      refine ih _ ?_ ?_
      · have hnot : (parse_tweet tw).id ∉ st.acc.map PostRecord.id := by
          intro hmem
          rcases List.mem_map.1 hmem with ⟨r, hr, hid⟩
          exact hg.2 (hid ▸ h2 r hr)
        simpa [List.nodup_append, hnot] using h1
      · intro r hr
        rcases List.mem_append.1 hr with hr | hr
        · exact List.mem_append_left _ (h2 r hr)
        · simp only [List.mem_singleton] at hr
          subst hr
          simp
    · simp only [process_new, if_neg hg]
      exact ih st h1 h2

/-- The loop body `process_new` never emits an id that was in the ledger on entry
(given the ledger extends a set `p0` that the output so far avoids). -/
theorem process_new_avoids (p0 : List String) (l : List Elem) (st : LoopState)
    (hp : ∀ x ∈ p0, x ∈ st.processed)
    (ha : ∀ r ∈ st.acc, r.id ∉ p0) :
    (∀ x ∈ p0, x ∈ (process_new l st).processed)
      ∧ ∀ r ∈ (process_new l st).acc, r.id ∉ p0 := by
  induction l generalizing st with
  | nil => exact ⟨hp, ha⟩
  | cons tw rest ih =>
    by_cases hg : (parse_tweet tw).id ≠ "" ∧ (parse_tweet tw).id ∉ st.processed
    · simp only [process_new, if_pos hg]
      refine ih _ ?_ ?_
      · intro x hx; exact List.mem_append_left _ (hp x hx)
      · intro r hr
        rcases List.mem_append.1 hr with hr | hr
        · exact ha r hr
        · simp only [List.mem_singleton] at hr
          subst hr
          intro hc
          exact hg.2 (hp _ hc)
    · simp only [process_new, if_neg hg]
      exact ih st hp ha

theorem run_from_scrolls (env : Nat → Iter) :
    ∀ (n k : Nat) (st : LoopState),
      (run_from env k n st).scrolls = st.scrolls + n := by
  intro n
  induction n with
  | zero => intro k st; simp [run_from]
  | succ m ih =>
    intro k st
    show (run_from env (k + 1) m (iter_step env st k)).scrolls = st.scrolls + (m + 1)
    rw [ih]
    simp only [iter_step, process_new_scrolls]
    omega

theorem run_from_congr (env env' : Nat → Iter) :
    ∀ (n k : Nat) (st : LoopState),
      (∀ j, j < n → env' (k + j) = env (k + j)) →
      run_from env' k n st = run_from env k n st := by
  intro n
  induction n with
  | zero => intro k st _; rfl
  | succ m ih =>
    intro k st h
    show run_from env' (k + 1) m (iter_step env' st k)
        = run_from env (k + 1) m (iter_step env st k)
    have h0 : env' k = env k := by
      have := h 0 (by omega)
      simpa using this
    rw [show iter_step env' st k = iter_step env st k by simp [iter_step, h0]]
    exact ih (k + 1) _ fun j hj => by
      have := h (j + 1) (by omega)
      rw [show k + 1 + j = k + (j + 1) by omega]
      exact this

/-- If iterations `k..k+n-1` each find new nodes, no cancellation is
observed through `k+n`, and iteration `k+n`'s diff is empty, the loop
runs exactly iterations `k..k+n` and stops. -/
theorem load_aux_stop :
    ∀ (n fuel k : Nat) (cancel : Nat → Bool) (env : Nat → Iter) (st : LoopState),
      (∀ j, j ≤ n → cancel (k + j) = false) →
      (∀ j, j < n → new_nodes (env (k + j)) ≠ []) →
      new_nodes (env (k + n)) = [] →
      n < fuel →
      load_aux fuel cancel env k st = run_from env k (n + 1) st := by
  intro n
  induction n with
  | zero =>
    intro fuel k cancel env st hc _ hN hfuel
    match fuel, hfuel with
    | f + 1, _ =>
      have hck : cancel k = false := by simpa using hc 0 (by omega)
      have hNk : new_nodes (env k) = [] := by simpa using hN
      simp only [load_aux, hck, Bool.false_eq_true, if_false, hNk,
        List.isEmpty_nil, if_true]
      simp [run_from, iter_step, process_new, hNk]
  | succ m ih =>
    intro fuel k cancel env st hc hd hN hfuel
    match fuel, hfuel with
    | f + 1, hfuel =>
      have hck : cancel k = false := by simpa using hc 0 (by omega)
      have hdk : new_nodes (env k) ≠ [] := by simpa using hd 0 (by omega)
      have hdk' : (new_nodes (env k)).isEmpty = false :=
        List.isEmpty_eq_false.2 hdk
      simp only [load_aux, hck, Bool.false_eq_true, if_false, hdk', Bool.false_eq_true,
        if_false]
      show load_aux f cancel env (k + 1) (iter_step env st k)
          = run_from env k (m + 1 + 1) st
      have heq : run_from env k (m + 1 + 1) st
          = run_from env (k + 1) (m + 1) (iter_step env st k) := rfl
      rw [heq]
      refine ih f (k + 1) cancel env (iter_step env st k) ?_ ?_ ?_ (by omega)
      · intro j hj
        rw [show k + 1 + j = k + (j + 1) by omega]
        exact hc (j + 1) (by omega)
      · intro j hj
        rw [show k + 1 + j = k + (j + 1) by omega]
        exact hd (j + 1) (by omega)
      · rw [show k + 1 + m = k + (m + 1) by omega]
        exact hN

/-- If cancellation is observed at the top of iteration `k+n` (and not
before, with every earlier diff nonempty), the loop runs exactly
iterations `k..k+n-1` and returns their accumulated state. -/
theorem load_aux_cancel :
    ∀ (n fuel k : Nat) (cancel : Nat → Bool) (env : Nat → Iter) (st : LoopState),
      (∀ j, j < n → cancel (k + j) = false) →
      cancel (k + n) = true →
      (∀ j, j < n → new_nodes (env (k + j)) ≠ []) →
      n < fuel →
      load_aux fuel cancel env k st = run_from env k n st := by
  intro n
  induction n with
  | zero =>
    intro fuel k cancel env st _ hctrue _ hfuel
    match fuel, hfuel with
    | f + 1, _ =>
      have hck : cancel k = true := by simpa using hctrue
      simp [load_aux, hck, run_from]
  | succ m ih =>
    intro fuel k cancel env st hc hctrue hd hfuel
    match fuel, hfuel with
    | f + 1, hfuel =>
      have hck : cancel k = false := by simpa using hc 0 (by omega)
      have hdk : new_nodes (env k) ≠ [] := by simpa using hd 0 (by omega)
      have hdk' : (new_nodes (env k)).isEmpty = false :=
        List.isEmpty_eq_false.2 hdk
      simp only [load_aux, hck, Bool.false_eq_true, if_false, hdk', if_false]
      show load_aux f cancel env (k + 1) (iter_step env st k)
          = run_from env k (m + 1) st
      have heq : run_from env k (m + 1) st
          = run_from env (k + 1) m (iter_step env st k) := rfl
      rw [heq]
      refine ih f (k + 1) cancel env (iter_step env st k) ?_ ?_ ?_ (by omega)
      · intro j hj
        rw [show k + 1 + j = k + (j + 1) by omega]
        exact hc (j + 1) (by omega)
      · rw [show k + 1 + m = k + (m + 1) by omega]
        exact hctrue
      · intro j hj
        rw [show k + 1 + j = k + (j + 1) by omega]
        exact hd (j + 1) (by omega)

/-- The dedup invariant holds at every exit point of the loop. -/
theorem load_aux_inv :
    ∀ (fuel k : Nat) (cancel : Nat → Bool) (env : Nat → Iter) (st : LoopState),
      (st.acc.map PostRecord.id).Nodup →
      (∀ r ∈ st.acc, r.id ∈ st.processed) →
      ((load_aux fuel cancel env k st).acc.map PostRecord.id).Nodup := by
  intro fuel
  induction fuel with
  | zero => intro k cancel env st h1 _; exact h1
  | succ f ih =>
    intro k cancel env st h1 h2
    by_cases hck : cancel k
    · simpa [load_aux, hck] using h1
    · have hinv := process_new_inv (new_nodes (env k))
        { st with scrolls := st.scrolls + 1 } h1 h2
      by_cases hempty : (new_nodes (env k)).isEmpty
      · simpa [load_aux, hck, hempty] using hinv.1
      · simpa [load_aux, hck, hempty] using
          ih (k + 1) cancel env _ hinv.1 hinv.2

/-- Ids present in the entry ledger are still in the exit ledger, and no
emitted record carries one of them. -/
theorem load_aux_avoids (p0 : List String) :
    ∀ (fuel k : Nat) (cancel : Nat → Bool) (env : Nat → Iter) (st : LoopState),
      (∀ x ∈ p0, x ∈ st.processed) →
      (∀ r ∈ st.acc, r.id ∉ p0) →
      (∀ x ∈ p0, x ∈ (load_aux fuel cancel env k st).processed)
        ∧ ∀ r ∈ (load_aux fuel cancel env k st).acc, r.id ∉ p0 := by
  intro fuel
  induction fuel with
  | zero => intro k cancel env st hp ha; exact ⟨hp, ha⟩
  | succ f ih =>
    intro k cancel env st hp ha
    by_cases hck : cancel k
    · simpa [load_aux, hck] using And.intro hp ha
    · have hav := process_new_avoids p0 (new_nodes (env k))
        { st with scrolls := st.scrolls + 1 } hp ha
      by_cases hempty : (new_nodes (env k)).isEmpty
      · simpa [load_aux, hck, hempty] using hav
      · simpa [load_aux, hck, hempty] using
          ih (k + 1) cancel env _ hav.1 hav.2

/-! ## Claim theorems -/

/-- C3: re-processing post nodes whose ids are already in the dedup
ledger leaves the collector state unchanged (no duplicate appended, no
length change), and the ids of the records output by
`load_and_parse_tweets` are pairwise distinct within a single run. -/
theorem collector_dedup_nodup :
    (∀ (l : List Elem) (st : LoopState),
        (∀ t ∈ l, (parse_tweet t).id ∈ st.processed) → process_new l st = st)
    ∧ ∀ (fuel : Nat) (cancel : Nat → Bool) (env : Nat → Iter) (p0 : List String),
        ((load_and_parse_tweets fuel cancel env p0).acc.map PostRecord.id).Nodup := by
  refine ⟨process_new_skip, ?_⟩
  intro fuel cancel env p0
  exact load_aux_inv fuel 0 cancel env _ (by simp) (by simp)

/-- Witness for C3: a node whose id `"t1"` is already in the ledger is
skipped without changing the state, and a concrete run's output ids are
duplicate-free. -/
theorem collector_dedup_nodup_witness :
    process_new [elem0] { processed := ["t1"], acc := [], scrolls := 0 }
      = { processed := ["t1"], acc := [], scrolls := 0 }
    ∧ ((load_and_parse_tweets 5 cancelNever envOnce []).acc.map PostRecord.id).Nodup := by
  refine ⟨collector_dedup_nodup.1 [elem0] _ ?_, collector_dedup_nodup.2 5 cancelNever envOnce []⟩
  intro t ht
  simp only [List.mem_singleton] at ht
  subst ht
  decide

/-- C4: if iterations `0..N-1` all find new nodes, no cancellation
occurs through iteration `N`, and iteration `N`'s new-node diff is
empty, then the loop runs exactly iterations `0..N` and stops there
(`N+1` scroll/wait pairs), however many nodes the earlier iterations
produced — there is no maximum post count in the exit condition. -/
theorem collector_stops_on_empty_diff
    (N fuel : Nat) (cancel : Nat → Bool) (env : Nat → Iter) (p0 : List String)
    (hc : ∀ k, k ≤ N → cancel k = false)
    (hd : ∀ k, k < N → new_nodes (env k) ≠ [])
    (hN : new_nodes (env N) = [])
    (hfuel : N < fuel) :
    load_and_parse_tweets fuel cancel env p0
      = run_from env 0 (N + 1) { processed := p0, acc := [], scrolls := 0 }
    ∧ (load_and_parse_tweets fuel cancel env p0).scrolls = N + 1 := by
  have h := load_aux_stop N fuel 0 cancel env
    { processed := p0, acc := [], scrolls := 0 }
    (fun j hj => by simpa using hc j hj)
    (fun j hj => by simpa using hd j hj)
    (by simpa using hN) hfuel
  refine ⟨h, ?_⟩
  show (load_aux fuel cancel env 0 _).scrolls = N + 1
  rw [h, run_from_scrolls]
  simp

/-- Witness for C4: the feed `envOnce` yields one node at iteration 0
and an empty diff at iteration 1, so the run stops after exactly two
scroll/wait pairs. -/
theorem collector_stops_on_empty_diff_witness :
    load_and_parse_tweets 5 cancelNever envOnce []
      = run_from envOnce 0 2 { processed := [], acc := [], scrolls := 0 }
    ∧ (load_and_parse_tweets 5 cancelNever envOnce []).scrolls = 2 :=
  collector_stops_on_empty_diff 1 5 cancelNever envOnce []
    (fun _ _ => rfl)
    (fun k hk => by
      have hk0 : k = 0 := by omega
      subst hk0
      decide)
    (by decide) (by omega)

/-- C5: if the cancellation flag is first observed set at the top of
iteration `K+1` (after `K+1` productive iterations), the loop returns
exactly the state accumulated through iteration `K`, issues exactly
`K+1` scroll/wait pairs, and its result does not depend on any snapshot
past iteration `K` — already-collected records are kept. -/
theorem collector_cancellation_boundary
    (K fuel : Nat) (cancel : Nat → Bool) (env : Nat → Iter) (p0 : List String)
    (hc : ∀ k, k ≤ K → cancel k = false)
    (hctrue : cancel (K + 1) = true)
    (hd : ∀ k, k ≤ K → new_nodes (env k) ≠ [])
    (hfuel : K + 1 < fuel) :
    load_and_parse_tweets fuel cancel env p0
      = run_from env 0 (K + 1) { processed := p0, acc := [], scrolls := 0 }
    ∧ (load_and_parse_tweets fuel cancel env p0).scrolls = K + 1
    ∧ ∀ env' : Nat → Iter, (∀ k, k ≤ K → env' k = env k) →
        load_and_parse_tweets fuel cancel env' p0
          = load_and_parse_tweets fuel cancel env p0 := by
  have main : ∀ e : Nat → Iter, (∀ k, k ≤ K → new_nodes (e k) ≠ []) →
      load_and_parse_tweets fuel cancel e p0
        = run_from e 0 (K + 1) { processed := p0, acc := [], scrolls := 0 } := by
    intro e hde
    exact load_aux_cancel (K + 1) fuel 0 cancel e
      { processed := p0, acc := [], scrolls := 0 }
      (fun j hj => by simpa using hc j (by omega))
      (by simpa using hctrue)
      (fun j hj => by simpa using hde j (by omega)) hfuel
  have h := main env hd
  refine ⟨h, ?_, ?_⟩
  · rw [h, run_from_scrolls]
    simp
  · intro env' hagree
    have hd' : ∀ k, k ≤ K → new_nodes (env' k) ≠ [] := by
      intro k hk
      rw [hagree k hk]
      exact hd k hk
    rw [main env' hd', h]
    exact run_from_congr env env' (K + 1) 0
      { processed := p0, acc := [], scrolls := 0 }
      fun j hj => by simpa using hagree j (by omega)

/-- Witness for C5: on the endless feed, raising the flag from iteration
2 on returns the two records of iterations 0 and 1 and exactly two
scroll/wait pairs; a feed agreeing on iterations 0-1 gives the same
result. -/
theorem collector_cancellation_boundary_witness :
    load_and_parse_tweets 9 cancelAt2 envEndless []
      = run_from envEndless 0 2 { processed := [], acc := [], scrolls := 0 }
    ∧ (load_and_parse_tweets 9 cancelAt2 envEndless []).scrolls = 2
    ∧ ∀ env' : Nat → Iter, (∀ k, k ≤ 1 → env' k = envEndless k) →
        load_and_parse_tweets 9 cancelAt2 env' []
          = load_and_parse_tweets 9 cancelAt2 envEndless [] :=
  collector_cancellation_boundary 1 9 cancelAt2 envEndless []
    (fun k hk => by
      have : k = 0 ∨ k = 1 := by omega
      rcases this with h | h <;> subst h <;> decide)
    (by decide)
    (fun k hk => by
      have : k = 0 ∨ k = 1 := by omega
      rcases this with h | h <;> subst h <;> decide)
    (by omega)

/-- C8: `get_tweet_type` classifies by testing the repost marker, then
the quote container, then the promoted marker, defaulting to original,
first match winning; in particular a node carrying both the reposted-by
and the quoted-post markers is a repost, not a quote. -/
theorem classifier_precedence (e : Elem) :
    (e.socialContextReposted = true → get_tweet_type e = PostType.Repost)
    ∧ (e.socialContextReposted = false → e.quoteTweet = true →
        get_tweet_type e = PostType.Quote)
    ∧ (e.socialContextReposted = false → e.quoteTweet = false →
        e.placementTracking = true → get_tweet_type e = PostType.Promoted)
    ∧ (e.socialContextReposted = false → e.quoteTweet = false →
        e.placementTracking = false → get_tweet_type e = PostType.Original)
    ∧ (e.socialContextReposted = true → e.quoteTweet = true →
        get_tweet_type e = PostType.Repost) :=
  ⟨fun h1 => by simp [get_tweet_type, h1],
   fun h1 h2 => by simp [get_tweet_type, h1, h2],
   fun h1 h2 h3 => by simp [get_tweet_type, h1, h2, h3],
   fun h1 h2 h3 => by simp [get_tweet_type, h1, h2, h3],
   fun h1 _ => by simp [get_tweet_type, h1]⟩

/-- Witness for C8: the node carrying both markers classifies as a
repost. -/
theorem classifier_precedence_witness :
    get_tweet_type elemRepostQuote = PostType.Repost :=
  (classifier_precedence elemRepostQuote).2.2.2.2 rfl rfl

/-- C9 counterexample: the dedup ledger is NOT created afresh per
collection call.  A first run over `envOnce` emits the record with id
`"t1"` and leaves that id in `self.processed_tweets`; a second call on
the same scraper (receiving that ledger, exactly as the Python instance
state does) sees a fresh node for the same post and emits nothing, while
the same second feed processed with an empty ledger emits the record —
so two successive runs are not independent. -/
theorem ledger_not_call_scoped_counterexample :
    (load_and_parse_tweets 5 cancelNever envOnce []).acc.map PostRecord.id = ["t1"]
    ∧ (load_and_parse_tweets 5 cancelNever envOnceAgain
        (load_and_parse_tweets 5 cancelNever envOnce []).processed).acc = []
    ∧ (load_and_parse_tweets 5 cancelNever envOnceAgain []).acc.map PostRecord.id
        = ["t1"] := by
  decide

/-- C9 amended: the dedup ledger is instance-scoped, not call-scoped —
`load_and_parse_tweets` starts from whatever ledger the scraper instance
already holds, never emits a record whose id is in that inherited
ledger, and returns a ledger still containing every inherited id. -/
theorem ledger_instance_persistence
    (fuel : Nat) (cancel : Nat → Bool) (env : Nat → Iter) (p0 : List String) :
    (∀ r ∈ (load_and_parse_tweets fuel cancel env p0).acc, r.id ∉ p0)
    ∧ ∀ x ∈ p0, x ∈ (load_and_parse_tweets fuel cancel env p0).processed := by
  have h := load_aux_avoids p0 fuel 0 cancel env
    { processed := p0, acc := [], scrolls := 0 } (fun x hx => hx) (by simp)
  exact ⟨h.2, h.1⟩

/-- Witness for C9's amended statement: a second run inheriting the
ledger `["t1"]` still reports `"t1"` in its ledger. -/
theorem ledger_instance_persistence_witness :
    "t1" ∈ (load_and_parse_tweets 5 cancelNever envOnceAgain ["t1"]).processed :=
  (ledger_instance_persistence 5 cancelNever envOnceAgain ["t1"]).2 "t1" (by simp)

/-- C10: two distinct nodes that both lack `data-tweet-id` and have the
same serialized inner content receive the same content-hash fallback id
from `parse_tweet`, and the collector therefore keeps at most the first
of them: appending the second node to the batch adds nothing to the
output. -/
theorem content_hash_fallback_dedup
    (e1 e2 : Elem) (st : LoopState)
    (_hne : e1 ≠ e2)
    (h1 : e1.dataTweetId = none) (h2 : e2.dataTweetId = none)
    (hhtml : e1.innerHtml = e2.innerHtml) :
    (parse_tweet e1).id = (parse_tweet e2).id
    ∧ (process_new [e1, e2] st).acc = (process_new [e1] st).acc := by
  have hid : (parse_tweet e1).id = (parse_tweet e2).id := by
    simp [parse_tweet, h1, h2, hhtml]
  refine ⟨hid, ?_⟩
  by_cases hg : (parse_tweet e1).id ≠ "" ∧ (parse_tweet e1).id ∉ st.processed
  · simp only [process_new, if_pos hg]
    have hg2 : ¬((parse_tweet e2).id ≠ ""
        ∧ (parse_tweet e2).id ∉ st.processed ++ [(parse_tweet e1).id]) := by
      rw [← hid]
      intro hcon
      exact hcon.2 (List.mem_append_right _ (by simp))
    simp only [process_new, if_neg hg2]
  · simp only [process_new, if_neg hg]
    have hg2 : ¬((parse_tweet e2).id ≠ "" ∧ (parse_tweet e2).id ∉ st.processed) := by
      rw [← hid]
      exact hg
    simp only [process_new, if_neg hg2]

/-- Witness for C10: the two concrete attribute-less nodes with equal
inner content share an id and the second one is dropped. -/
theorem content_hash_fallback_dedup_witness :
    (parse_tweet elemHashA).id = (parse_tweet elemHashB).id
    ∧ (process_new [elemHashA, elemHashB] st0).acc = (process_new [elemHashA] st0).acc :=
  content_hash_fallback_dedup elemHashA elemHashB st0 (by decide) rfl rfl rfl

/-- C6 (code-bug evidence): on a post whose grouped label reads
`"12 replies 3 reposts 100 likes"` and which has no separate views
element, `parse_engagement` returns replies 0, not 12 — Python's
substring test `"reply" in "replies"` is false (there is no `y` in
`replies`), so the plural keyword never updates the reply field, while
`"repost" in "reposts"` and `"like" in "likes"` do match. -/
theorem engagement_label_plural_replies_bug :
    parse_engagement 1 elemLabel
      = { reply := 0, repost := 3, like := 100, views := 0 }
    ∧ (parse_engagement 1 elemLabel).reply ≠ 12 := by
  decide

/-- C7: the reply-button fallback can never override a nonzero reply
count obtained from the grouped label — if the label scan yields a
nonzero reply figure, the final reply field equals it and the result is
unchanged under any reply-button text; conversely the final reply field
differs from the label's only when the label gave 0 and the accepted
override is strictly positive. -/
theorem reply_override_guard (fuel : Nat) (e : Elem) :
    ((label_metrics e).reply ≠ 0 →
      (parse_engagement fuel e).reply = (label_metrics e).reply
        ∧ ∀ b, parse_engagement fuel { e with replyBtn := b } = parse_engagement fuel e)
    ∧ ((parse_engagement fuel e).reply ≠ (label_metrics e).reply →
      (label_metrics e).reply = 0 ∧ 0 < (parse_engagement fuel e).reply) := by
  constructor
  · intro hne
    have key : ∀ b : Option String,
        engage_steps { e with replyBtn := b } = engage_steps e := by
      intro b
      show (match views_step e (label_metrics e) with
            | .error r => Except.error r
            | .ok r2 => reply_step { e with replyBtn := b } r2)
          = (match views_step e (label_metrics e) with
            | .error r => Except.error r
            | .ok r2 => reply_step e r2)
      rcases hv : views_step e (label_metrics e) with r | r2
      · rfl
      · have h2 := views_step_ok e _ _ hv
        have hnz : r2.reply ≠ 0 := by rw [h2.1]; exact hne
        simp only [reply_step_nonzero _ _ hnz]
    have main : (parse_engagement 0 e).reply = (label_metrics e).reply := by
      rw [parse_engagement_zero]
      rcases hv : views_step e (label_metrics e) with r | r2
      · have hs : engage_steps e = .error r := by
          unfold engage_steps
          rw [hv]
        rw [hs]
        rw [views_step_error e _ _ hv]
      · have h2 := views_step_ok e _ _ hv
        have hnz : r2.reply ≠ 0 := by rw [h2.1]; exact hne
        have hs : engage_steps e = .ok r2 := by
          unfold engage_steps
          rw [hv]
          exact reply_step_nonzero e r2 hnz
        rw [hs]
        exact h2.1
    refine ⟨?_, ?_⟩
    · rw [parse_engagement_fuel_irrelevant]
      exact main
    · intro b
      rw [parse_engagement_fuel_irrelevant fuel { e with replyBtn := b },
        parse_engagement_fuel_irrelevant fuel e,
        parse_engagement_zero, parse_engagement_zero, key b]
  · intro hneq
    rw [parse_engagement_fuel_irrelevant] at hneq ⊢
    rcases hv : views_step e (label_metrics e) with r' | r2
    · have he : engage_steps e = .error r' := by
        unfold engage_steps
        rw [hv]
      rw [parse_zero_of_steps_err e r' he] at hneq
      exact absurd (congrArg Engagement.reply (views_step_error e _ _ hv)) hneq
    · have h2 := views_step_ok e _ _ hv
      have hbase : engage_steps e = reply_step e r2 := by
        unfold engage_steps
        rw [hv]
      by_cases hz : r2.reply = 0
      · rcases hh : handle_suffix (e.replyBtn.getD "0") with _ | v
        · have hr : reply_step e r2 = .error r2 := by
            unfold reply_step
            rw [if_pos hz, hh]
          rw [parse_zero_of_steps_err e r2 (hbase.trans hr)] at hneq
          exact absurd h2.1 hneq
        · by_cases hvp : 0 < v
          · have hr : reply_step e r2 = .ok { r2 with reply := v } := by
              unfold reply_step
              rw [if_pos hz, hh]
              show Except.ok (if 0 < v then { r2 with reply := v } else r2)
                = Except.ok { r2 with reply := v }
              rw [if_pos hvp]
            rw [parse_zero_of_steps_ok e _ (hbase.trans hr)] at hneq ⊢
            exact ⟨h2.1 ▸ hz, hvp⟩
          · have hr : reply_step e r2 = .ok r2 := by
              unfold reply_step
              rw [if_pos hz, hh]
              show Except.ok (if 0 < v then { r2 with reply := v } else r2)
                = Except.ok r2
              rw [if_neg hvp]
            rw [parse_zero_of_steps_ok e r2 (hbase.trans hr)] at hneq
            exact absurd h2.1 hneq
      · rw [parse_zero_of_steps_ok e r2
          (hbase.trans (reply_step_nonzero e r2 hz))] at hneq
        exact absurd h2.1 hneq

/-- Witness for C7: on `elemGuard` the label gives five replies (via the
keyword `comment`), the reply button reading `"0"` does not overwrite
them, and replacing the button text changes nothing. -/
theorem reply_override_guard_witness :
    (parse_engagement 1 elemGuard).reply = (label_metrics elemGuard).reply
    ∧ parse_engagement 1 { elemGuard with replyBtn := some "99" }
        = parse_engagement 1 elemGuard := by
  have h := (reply_override_guard 1 elemGuard).1 (by decide)
  exact ⟨h.1, h.2 (some "99")⟩


/-! ## Normalizer lemmas -/

theorem data_mk (l : List Char) : (String.mk l).data = l := rfl

theorem char_bne_of_isDigit {c d : Char} (h : c.isDigit = true)
    (hd : d.isDigit = false) : (c != d) = true := by
  have hne : c ≠ d := by
    intro hEq
    rw [hEq, hd] at h
    exact absurd h (by decide)
  simpa [bne_iff_ne] using hne

theorem isPySpace_eq_false_of_isDigit {c : Char} (h : c.isDigit = true) :
    isPySpace c = false := by
  cases hb : isPySpace c
  · rfl
  · exfalso
    have hb' := hb
    simp only [isPySpace, Bool.or_eq_true, beq_iff_eq, or_assoc] at hb'
    rcases hb' with h1 | h1 | h1 | h1 | h1 | h1 <;> subst h1 <;>
      exact absurd h (by decide)

theorem kmb_cases {c : Char} (h : isKMBchar c = true) :
    c = 'K' ∨ c = 'k' ∨ c = 'M' ∨ c = 'm' ∨ c = 'B' ∨ c = 'b' := by
  simpa [isKMBchar, Bool.or_eq_true, beq_iff_eq, or_assoc] using h

theorem kmb_char_facts {c : Char} (h : isKMBchar c = true) :
    digitOrDot c = false ∧ isPySpace c = false ∧ (c != ',') = true := by
  rcases kmb_cases h with h1 | h1 | h1 | h1 | h1 | h1 <;> subst h1 <;> decide

theorem filter_all_eq_self (p : Char → Bool) (l : List Char)
    (h : ∀ c ∈ l, p c = true) : l.filter p = l := by
  induction l with
  | nil => rfl
  | cons a t ih =>
    rw [List.filter_cons, if_pos (h a (List.mem_cons_self a t))]
    rw [ih fun c hc => h c (List.mem_cons_of_mem a hc)]

theorem takeWhile_all_eq_self (p : Char → Bool) (l : List Char)
    (h : ∀ c ∈ l, p c = true) : l.takeWhile p = l := by
  induction l with
  | nil => rfl
  | cons a t ih =>
    rw [List.takeWhile_cons, if_pos (h a (List.mem_cons_self a t))]
    rw [ih fun c hc => h c (List.mem_cons_of_mem a hc)]

theorem dropWhile_all_eq_nil (p : Char → Bool) (l : List Char)
    (h : ∀ c ∈ l, p c = true) : l.dropWhile p = [] := by
  induction l with
  | nil => rfl
  | cons a t ih =>
    rw [List.dropWhile_cons, if_pos (h a (List.mem_cons_self a t))]
    exact ih fun c hc => h c (List.mem_cons_of_mem a hc)

theorem dropWhile_head_false (p : Char → Bool) (l : List Char)
    (h : ∀ c ∈ l, p c = false) : l.dropWhile p = l := by
  cases l with
  | nil => rfl
  | cons a t =>
    rw [List.dropWhile_cons, if_neg (by simp [h a (List.mem_cons_self a t)])]

theorem mem_of_mem_dropWhileX (p : Char → Bool) (l : List Char) (c : Char)
    (h : c ∈ l.dropWhile p) : c ∈ l := by
  induction l with
  | nil => simp at h
  | cons a t ih =>
    rw [List.dropWhile_cons] at h
    by_cases hp : p a = true
    · rw [if_pos hp] at h
      exact List.mem_cons_of_mem a (ih h)
    · rw [if_neg hp] at h
      exact h

theorem pyStrip_eq_self (l : List Char) (h : ∀ c ∈ l, isPySpace c = false) :
    pyStrip l = l := by
  unfold pyStrip
  rw [dropWhile_head_false _ _ h]
  rw [dropWhile_head_false _ _ (by intro c hc; exact h c (List.mem_reverse.1 hc))]
  exact List.reverse_reverse l

theorem pyStrip_subset (l : List Char) (c : Char) (h : c ∈ pyStrip l) : c ∈ l := by
  unfold pyStrip at h
  rw [List.mem_reverse] at h
  have h2 := mem_of_mem_dropWhileX _ _ _ h
  rw [List.mem_reverse] at h2
  exact mem_of_mem_dropWhileX _ _ _ h2

theorem searchNumToken_eq_none (l : List Char)
    (h : ∀ c ∈ l, digitOrDot c = false) : searchNumToken l = none := by
  induction l with
  | nil => rfl
  | cons a t ih =>
    show (if digitOrDot a then _ else searchNumToken t) = none
    rw [if_neg (by simp [h a (List.mem_cons_self a t)])]
    exact ih fun c hc => h c (List.mem_cons_of_mem a hc)

/-- The regex search on a pure numeric token: group 1 is the whole
token, no suffix. -/
theorem searchNumToken_noSuffix (g1 : List Char) (hg : g1 ≠ [])
    (hall : ∀ c ∈ g1, digitOrDot c = true) :
    searchNumToken g1 = some (g1, none) := by
  obtain ⟨c0, t, rfl⟩ := List.exists_cons_of_ne_nil hg
  show (if digitOrDot c0 then _ else _) = _
  rw [if_pos (hall c0 (List.mem_cons_self c0 t))]
  dsimp only
  rw [takeWhile_all_eq_self _ _ hall, dropWhile_all_eq_nil _ _ hall]
  rfl

/-- The regex search on a numeric token followed directly by one
non-numeric, non-space character: group 1 is the token; group 2 (already
uppercased) is present exactly when the trailing character is a
magnitude letter. -/
theorem searchNumToken_suffix (g1 : List Char) (k : Char) (hg : g1 ≠ [])
    (hall : ∀ c ∈ g1, digitOrDot c = true)
    (hk : digitOrDot k = false) (hks : isPySpace k = false) :
    searchNumToken (g1 ++ [k])
      = if isKMBchar k then some (g1, some k.toUpper) else some (g1, none) := by
  obtain ⟨c0, t, rfl⟩ := List.exists_cons_of_ne_nil hg
  rw [List.cons_append]
  show (if digitOrDot c0 then _ else _) = _
  rw [if_pos (hall c0 (List.mem_cons_self c0 t))]
  dsimp only
  rw [← List.cons_append]
  rw [List.takeWhile_append_of_pos hall, List.dropWhile_append_of_pos hall]
  rw [show List.takeWhile digitOrDot [k] = [] by
    rw [List.takeWhile_cons, if_neg (by simp [hk])]]
  rw [show List.dropWhile digitOrDot [k] = [k] by
    rw [List.dropWhile_cons, if_neg (by simp [hk])]]
  rw [show List.dropWhile isPySpace [k] = [k] by
    rw [List.dropWhile_cons, if_neg (by simp [hks])]]
  rw [List.append_nil]

/-- Python `float` on a pure digit run: the exact integer value over
denominator 1. -/
theorem pyFloatParse_digits (d : List Char) (hd : d ≠ [])
    (hall : ∀ c ∈ d, c.isDigit = true) :
    pyFloatParse d = some (natOfDigits d, 1) := by
  have hdots : ∀ c ∈ d, (c != '.') = true :=
    fun c hc => char_bne_of_isDigit (hall c hc) (by decide)
  have hcond : (d.all digitOrDot = true) ∧ d.count '.' ≤ 1
      ∧ (d.any Char.isDigit = true) := by
    refine ⟨?_, ?_, ?_⟩
    · rw [List.all_eq_true]
      intro c hc
      simp [digitOrDot, hall c hc]
    · have : '.' ∉ d := by
        intro hmem
        have := hall '.' hmem
        exact absurd this (by decide)
      rw [List.count_eq_zero.2 this]
      omega
    · rw [List.any_eq_true]
      obtain ⟨c0, t, rfl⟩ := List.exists_cons_of_ne_nil hd
      exact ⟨c0, List.mem_cons_self c0 t, hall c0 (List.mem_cons_self c0 t)⟩
  unfold pyFloatParse
  rw [if_pos hcond]
  dsimp only
  rw [takeWhile_all_eq_self _ _ hdots, dropWhile_all_eq_nil _ _ hdots]
  simp [natOfDigits]

/-- Python `float` on digits, a dot, and fractional digits: the exact decimal
value as a pair (numerator, power of ten). -/
theorem pyFloatParse_digits_frac (d fs : List Char) (hd : d ≠ [])
    (hall : ∀ c ∈ d, c.isDigit = true) (hf : ∀ c ∈ fs, c.isDigit = true) :
    pyFloatParse (d ++ '.' :: fs)
      = some (natOfDigits d * 10 ^ fs.length + natOfDigits fs, 10 ^ fs.length) := by
  have hdots : ∀ c ∈ d, (c != '.') = true :=
    fun c hc => char_bne_of_isDigit (hall c hc) (by decide)
  have hnotin : '.' ∉ d := by
    intro hmem
    exact absurd (hall '.' hmem) (by decide)
  have hnotinf : '.' ∉ fs := by
    intro hmem
    exact absurd (hf '.' hmem) (by decide)
  have hcond : ((d ++ '.' :: fs).all digitOrDot = true)
      ∧ (d ++ '.' :: fs).count '.' ≤ 1
      ∧ ((d ++ '.' :: fs).any Char.isDigit = true) := by
    refine ⟨?_, ?_, ?_⟩
    · rw [List.all_eq_true]
      intro c hc
      rcases List.mem_append.1 hc with hc | hc
      · simp [digitOrDot, hall c hc]
      · rcases List.mem_cons.1 hc with hc | hc
        · subst hc
          decide
        · simp [digitOrDot, hf c hc]
    · rw [List.count_append, List.count_eq_zero.2 hnotin, List.count_cons_self,
        List.count_eq_zero.2 hnotinf]
    · rw [List.any_eq_true]
      obtain ⟨c0, t, rfl⟩ := List.exists_cons_of_ne_nil hd
      exact ⟨c0, by simp, hall c0 (List.mem_cons_self c0 t)⟩
  unfold pyFloatParse
  rw [if_pos hcond]
  dsimp only
  rw [List.takeWhile_append_of_pos hdots, List.dropWhile_append_of_pos hdots]
  rw [show List.takeWhile (fun c => c != '.') ('.' :: fs) = [] by
    rw [List.takeWhile_cons, if_neg (by simp)]]
  rw [show List.dropWhile (fun c => c != '.') ('.' :: fs) = '.' :: fs by
    rw [List.dropWhile_cons, if_neg (by simp)]]
  rw [List.append_nil]
  rfl

/-- The no-dot branch value: helper simp fact. -/
theorem natOfDigits_nil : natOfDigits [] = 0 := rfl

/-- Python `int(text)` fails on any digit-free string. -/
theorem pyIntParse_none (l : List Char) (h : ∀ c ∈ l, c.isDigit = false) :
    pyIntParse l = none := by
  have hcond : ∀ body : List Char, (∀ c ∈ body, c.isDigit = false) →
      ¬(body ≠ [] ∧ body.all Char.isDigit = true) := by
    rintro body hb ⟨hne, hallb⟩
    obtain ⟨x, xs, rfl⟩ := List.exists_cons_of_ne_nil hne
    have hx := List.all_eq_true.1 hallb x (List.mem_cons_self x xs)
    rw [hb x (List.mem_cons_self x xs)] at hx
    exact absurd hx (by decide)
  cases l with
  | nil => rfl
  | cons a t =>
    have htail : ∀ c ∈ t, c.isDigit = false :=
      fun c hc => h c (List.mem_cons_of_mem a hc)
    unfold pyIntParse
    dsimp only
    by_cases h1 : (a == '-') = true
    · rw [if_pos h1]
      exact if_neg (hcond t htail)
    · rw [if_neg h1]
      by_cases h2 : (a == '+') = true
      · rw [if_pos h2]
        exact if_neg (hcond t htail)
      · rw [if_neg h2]
        exact if_neg (hcond (a :: t) h)

/-- C1 amended: on every well-formed count string — digits with optional
comma separators, an optional dot-fraction, an optional case-insensitive
K/M/B suffix — `handle_suffix` returns the exact value times the
magnitude multiplier TRUNCATED to an integer (floor, since the token is
nonnegative), not rounded; and a string containing neither a digit nor a
dot yields 0. -/
theorem handle_suffix_wellformed_trunc :
    (∀ (d' : List Char) (f : Option (List Char)) (suf : Option Char),
      d'.all (fun c => c.isDigit || c == ',') = true →
      d'.any Char.isDigit = true →
      (f.getD []).all Char.isDigit = true →
      optSufOk suf = true →
      handle_suffix (String.mk (d' ++ fracPart f ++ sufPart suf))
        = some (Int.ofNat ((natOfDigits (d'.filter (· != ',')) * 10 ^ (f.getD []).length
            + natOfDigits (f.getD [])) * multOf (suf.map Char.toUpper)
            / 10 ^ (f.getD []).length)))
    ∧ ∀ s : String, (∀ c ∈ s.data, c.isDigit = false ∧ c ≠ '.') →
        handle_suffix s = some 0 := by
  constructor
  · intro d' f suf h1 h2 h3 h4
    have hdall : ∀ c ∈ d'.filter (· != ','), c.isDigit = true := by
      intro c hc
      rcases List.mem_filter.1 hc with ⟨hcd, hne⟩
      have hor := List.all_eq_true.1 h1 c hcd
      rw [Bool.or_eq_true] at hor
      rcases hor with hd | hcm
      · exact hd
      · exfalso
        rw [beq_iff_eq] at hcm
        subst hcm
        simp at hne
    have hfall : ∀ c ∈ f.getD [], c.isDigit = true :=
      fun c hc => List.all_eq_true.1 h3 c hc
    have hdne : d'.filter (· != ',') ≠ [] := by
      rcases List.any_eq_true.1 h2 with ⟨x, hx, hxd⟩
      exact List.ne_nil_of_mem
        (List.mem_filter.2 ⟨hx, char_bne_of_isDigit hxd (by decide)⟩)
    have hg1all : ∀ c ∈ d'.filter (· != ',') ++ fracPart f, digitOrDot c = true := by
      intro c hc
      rcases List.mem_append.1 hc with hc | hc
      · simp [digitOrDot, hdall c hc]
      · cases f with
        | none => simp [fracPart] at hc
        | some fs =>
          simp only [fracPart] at hc
          rcases List.mem_cons.1 hc with hc | hc
          · subst hc
            decide
          · simp [digitOrDot, hfall c hc]
    have hg1ne : d'.filter (· != ',') ++ fracPart f ≠ [] := by
      intro hEq
      exact hdne (List.append_eq_nil.1 hEq).1
    have hfilter : (d' ++ fracPart f ++ sufPart suf).filter (· != ',')
        = d'.filter (· != ',') ++ fracPart f ++ sufPart suf := by
      rw [List.filter_append, List.filter_append]
      rw [filter_all_eq_self _ (fracPart f) ?hfrac,
        filter_all_eq_self _ (sufPart suf) ?hsuf]
      case hfrac =>
        intro c hc
        cases f with
        | none => simp [fracPart] at hc
        | some fs =>
          simp only [fracPart] at hc
          rcases List.mem_cons.1 hc with hc | hc
          · subst hc
            decide
          · exact char_bne_of_isDigit (hfall c hc) (by decide)
      case hsuf =>
        intro c hc
        cases suf with
        | none => simp [sufPart] at hc
        | some k =>
          simp only [sufPart, List.mem_singleton] at hc
          subst hc
          exact (kmb_char_facts h4).2.2
    have hstrip : pyStrip (d'.filter (· != ',') ++ fracPart f ++ sufPart suf)
        = d'.filter (· != ',') ++ fracPart f ++ sufPart suf := by
      apply pyStrip_eq_self
      intro c hc
      rcases List.mem_append.1 hc with hc | hc
      · rcases List.mem_append.1 hc with hc | hc
        · exact isPySpace_eq_false_of_isDigit (hdall c hc)
        · cases f with
          | none => simp [fracPart] at hc
          | some fs =>
            simp only [fracPart] at hc
            rcases List.mem_cons.1 hc with hc | hc
            · subst hc
              decide
            · exact isPySpace_eq_false_of_isDigit (hfall c hc)
      · cases suf with
        | none => simp [sufPart] at hc
        | some k =>
          simp only [sufPart, List.mem_singleton] at hc
          subst hc
          exact (kmb_char_facts h4).2.1
    have hsearch : searchNumToken (d'.filter (· != ',') ++ fracPart f ++ sufPart suf)
        = some (d'.filter (· != ',') ++ fracPart f, suf.map Char.toUpper) := by
      cases suf with
      | none =>
        rw [show sufPart none = [] from rfl, List.append_nil]
        rw [searchNumToken_noSuffix _ hg1ne hg1all]
        rfl
      | some k =>
        have hkmb : isKMBchar k = true := h4
        rw [show sufPart (some k) = [k] from rfl]
        rw [searchNumToken_suffix _ k hg1ne hg1all (kmb_char_facts hkmb).1
          (kmb_char_facts hkmb).2.1]
        rw [if_pos hkmb]
        rfl
    have hfloat : pyFloatParse (d'.filter (· != ',') ++ fracPart f)
        = some (natOfDigits (d'.filter (· != ',')) * 10 ^ (f.getD []).length
            + natOfDigits (f.getD []), 10 ^ (f.getD []).length) := by
      cases f with
      | none =>
        rw [show fracPart none = [] from rfl, List.append_nil]
        rw [pyFloatParse_digits _ hdne hdall]
        simp [natOfDigits_nil]
      | some fs =>
        rw [show fracPart (some fs) = '.' :: fs from rfl]
        exact pyFloatParse_digits_frac _ _ hdne hdall hfall
    unfold handle_suffix
    rw [data_mk]
    dsimp only
    rw [hfilter, hstrip, hsearch]
    dsimp only
    rw [hfloat]
  · intro s hs
    have hclean : ∀ c ∈ pyStrip (s.data.filter (· != ',')), digitOrDot c = false := by
      intro c hc
      have hc2 : c ∈ s.data := (List.mem_filter.1 (pyStrip_subset _ _ hc)).1
      obtain ⟨hdig, hdot⟩ := hs c hc2
      simp only [digitOrDot, hdig, Bool.false_or, beq_eq_false_iff_ne, ne_eq]
      exact hdot
    have hnodig : ∀ c ∈ pyStrip (s.data.filter (· != ',')), c.isDigit = false := by
      intro c hc
      have hcd := hclean c hc
      simp only [digitOrDot, Bool.or_eq_false_iff] at hcd
      exact hcd.1
    unfold handle_suffix
    dsimp only
    rw [searchNumToken_eq_none _ hclean]
    dsimp only
    rw [pyIntParse_none _ hnodig]
    rfl

/-- Witness for C1's amended statement: the spec's three examples hold
under truncation (they are exact), and a digit-free string yields 0. -/
theorem handle_suffix_wellformed_trunc_witness :
    handle_suffix "12.3K" = some 12300 ∧ handle_suffix "1,234" = some 1234
    ∧ handle_suffix "1.2M" = some 1200000 ∧ handle_suffix "xyz" = some 0 := by
  refine ⟨?_, ?_, ?_, ?_⟩
  · have h := handle_suffix_wellformed_trunc.1 ['1', '2'] (some ['3']) (some 'K')
      (by decide) (by decide) (by decide) (by decide)
    rw [show String.mk (['1', '2'] ++ fracPart (some ['3']) ++ sufPart (some 'K'))
      = "12.3K" by decide] at h
    exact h.trans (by decide)
  · have h := handle_suffix_wellformed_trunc.1 ['1', ',', '2', '3', '4'] none none
      (by decide) (by decide) (by decide) (by decide)
    rw [show String.mk (['1', ',', '2', '3', '4'] ++ fracPart none ++ sufPart none)
      = "1,234" by decide] at h
    exact h.trans (by decide)
  · have h := handle_suffix_wellformed_trunc.1 ['1'] (some ['2']) (some 'M')
      (by decide) (by decide) (by decide) (by decide)
    rw [show String.mk (['1'] ++ fracPart (some ['2']) ++ sufPart (some 'M'))
      = "1.2M" by decide] at h
    exact h.trans (by decide)
  · exact handle_suffix_wellformed_trunc.2 "xyz" (by decide)

/-- C1 counterexample: on the well-formed input `"1.5"` the code returns
the truncation 1 — `int(num * multiplier)` truncates toward zero — while
the claimed `round(1.5 × 1)` is 2 (so under round-half-up; Python's
round-half-to-even also gives 2 here as 2 is even). -/
theorem handle_suffix_not_round_counterexample :
    handle_suffix "1.5" = some 1 ∧ roundNat (15 * 1) 10 = 2
    ∧ handle_suffix "1.5" ≠ some (Int.ofNat (roundNat (15 * 1) 10)) := by
  decide

/-- C2 (code-bug evidence): `handle_suffix` is not total over arbitrary
strings — on `"."` (and on any token with several dots, such as
`"1.2.3"`) the regex `[\d.]+` matches a dots-only group, `float(...)`
raises `ValueError`, and nothing in `handle_suffix` catches it, so the
exception escapes to the caller instead of the documented fallback 0. -/
theorem handle_suffix_raises_on_dot :
    handle_suffix "." = none ∧ handle_suffix "1.2.3" = none := by
  decide
